import Mathlib

/-!
Shallow embedding of the Dino-Evo neuro-evolution core and verification of the
specification claims against it.

Sources embedded:
- src/neat/counter.py        (Counter)
- src/neat/edge.py           (Link, Edge)
- src/nn/node.py             (Node)
- src/neat/activations.py    (relu, softmax, ACTIVATION_MAP)
- src/nn/genome.py           (Genome and its structural operations)
- src/nn/ffn.py              (FeedForwardNetwork: topological order, forward)
- src/nn/evolutionary_operators.py and src/neat/evolutionary_operators.py
                             (crossover, mutate and the mutation operators)
- src/utils/serialization.py (serialize_population / deserialize_population)
- src/population_controller.py (evolve_population size bookkeeping)

Python floats are modelled as rationals (ℚ); none of the verified claims
depends on rounding behaviour of IEEE doubles, and wherever a fixed float
expression from settings.py is evaluated (for example int(20 * 0.2)) the IEEE
result is noted in a comment and agrees with the rational value used here.
Randomness (random.random, random.choice, np.random.normal) is modelled by
explicit parameters carrying the drawn values: random.choice by the chosen
index, np.random.normal(0, s) by s * z with z the standard-normal draw.
-/

set_option autoImplicit false

namespace DinoEvo

/-- Activation functions of the closed registry ACTIVATION_MAP in
src/neat/activations.py: "relu" and "softmax". Node.activation in the Python
source is a callable; every activation stored on a node in this repository is
taken from this registry. -/
inductive Act where
  | relu
  | softmax
deriving DecidableEq, Repr

/-- Semantics of an activation applied to the scalar weighted sum, as
FeedForwardNetwork.forward does. relu(x) = max(0, x). softmax applied to a
scalar x computes exp(x - max) / sum(exp(x - max)) = exp(0) / exp(0) = 1. -/
def applyAct : Act → ℚ → ℚ
  | Act.relu, x => max 0 x
  | Act.softmax, _ => 1

/-- Link from src/neat/edge.py: ordered pair of node ids with structural
equality. The Python field names input_id / output_id are kept. -/
structure Link where
  input_id : Nat
  output_id : Nat
deriving DecidableEq, Repr

/-- Edge from src/neat/edge.py: a Link plus weight and enabled flag. -/
structure Edge where
  link : Link
  weight : ℚ
  is_enabled : Bool
deriving DecidableEq, Repr

/-- Node from src/nn/node.py: id, bias and activation. -/
structure Node where
  id : Nat
  bias : ℚ
  activation : Act
deriving DecidableEq, Repr

/-- Counter from src/neat/counter.py.  In Python, `value = 1` is a class-level
attribute, but `self.value += 1` inside `increment` performs an instance
attribute write that shadows the class attribute: the class attribute itself is
never reassigned anywhere in the repository and therefore stays 1 forever.
`instValue` models the instance __dict__ entry for `value` (`none` until the
first write, as on a fresh `Counter()`). -/
structure Counter where
  instValue : Option Nat
deriving DecidableEq, Repr

/-- The class attribute `Counter.value`. No statement in the repository ever
assigns to it (instance writes shadow it), so it is the constant 1. -/
def Counter.classValue : Nat := 1

/-- A fresh `Counter()` instance: no instance attribute yet. -/
def Counter.new : Counter := ⟨none⟩

/-- Python attribute read `self.value`: the instance attribute when present,
otherwise the class attribute. -/
def Counter.read (c : Counter) : Nat := c.instValue.getD Counter.classValue

/-- Models `Counter.increment`: `prev_value = self.value; self.value += 1;
return prev_value`. The `+= 1` writes the instance attribute. -/
def Counter.increment (c : Counter) : Nat × Counter :=
  (c.read, ⟨some (c.read + 1)⟩)

/-- Genome from src/nn/genome.py: per-genome node counter, fixed input/output
counts, node list and edge list. -/
structure Genome where
  node_counter : Counter
  in_features : Nat
  out_features : Nat
  nodes : List Node
  edges : List Edge
deriving DecidableEq, Repr

/-- Models `Genome(in_features, out_features)`: `self.node_counter = Counter()`,
empty node and edge lists. -/
def Genome.new (in_features out_features : Nat) : Genome :=
  { node_counter := Counter.new
    in_features := in_features
    out_features := out_features
    nodes := []
    edges := [] }

/-- Models `Genome.find_node`: first node whose id matches, `None` on miss. -/
def Genome.find_node (g : Genome) (node_id : Nat) : Option Node :=
  g.nodes.find? (fun n => n.id == node_id)

/-- Models `Genome.add_node`: appends the node. -/
def Genome.add_node (g : Genome) (new_node : Node) : Genome :=
  { g with nodes := g.nodes ++ [new_node] }

/-- Models `Genome.find_edge`: first edge whose link matches (Link.__eq__ is
structural), `None` on miss. -/
def Genome.find_edge (g : Genome) (link : Link) : Option Edge :=
  g.edges.find? (fun e => e.link == link)

/-- Models `Genome.add_edge`: appends the edge. -/
def Genome.add_edge (g : Genome) (new_edge : Edge) : Genome :=
  { g with edges := g.edges ++ [new_edge] }

/-- Models `Genome.remove_node`: if `find_node` misses, return unchanged; otherwise
`self.nodes.remove(node)` removes exactly the found object, i.e. the first node
with the id (Node has no __eq__, so list.remove matches by identity), and every
edge whose link touches the id is collected and removed. -/
def Genome.remove_node (g : Genome) (node_id : Nat) : Genome :=
  match g.find_node node_id with
  | none => g
  | some _ =>
    { g with
      nodes := g.nodes.eraseP (fun n => n.id == node_id)
      edges := g.edges.filter
        (fun e => !(e.link.input_id == node_id || e.link.output_id == node_id)) }

/-- Python `range(a, b)` as a list: `[a, a+1, ..., b-1]`, empty when `b ≤ a`. -/
def pyRange (a b : Nat) : List Nat := List.range' a (b - a)

/-- Models `Genome.get_input_nodes`: `list(range(1, in_features + 1))`. -/
def Genome.get_input_nodes (g : Genome) : List Nat := pyRange 1 (g.in_features + 1)

/-- Models `Genome.get_output_nodes`:
`list(range(in_features + 1, in_features + out_features + 1))`. -/
def Genome.get_output_nodes (g : Genome) : List Nat :=
  pyRange (g.in_features + 1) (g.in_features + g.out_features + 1)

/-- Models `Genome.get_hidden_nodes`:
`list(range(in_features + out_features + 2, len(nodes) + 1))` — exactly as in
the source, the range starts at `in_features + out_features + 2` and its upper
bound is derived from the node-list length, not from ids. -/
def Genome.get_hidden_nodes (g : Genome) : List Nat :=
  pyRange (g.in_features + g.out_features + 2) (g.nodes.length + 1)

/-- Models `Genome.get_input_or_hidden_nodes`. -/
def Genome.get_input_or_hidden_nodes (g : Genome) : List Nat :=
  g.get_input_nodes ++ g.get_hidden_nodes

/-- The single-successor walk inside `Genome.would_create_cycle`: from
`current`, scan `self.edges` in order for the first edge whose input_id matches
(enabled or not — the source never tests `is_enabled` here); return True when
that edge points at `target`, otherwise continue from its output.  The Python
`while True` loop need not terminate, so the embedding carries fuel and yields
`none` when it runs out (divergence). -/
def wccWalk (edges : List Edge) (target : Nat) : Nat → Nat → Option Bool
  | _, 0 => none
  | current, fuel + 1 =>
    match edges.find? (fun e => e.link.input_id == current) with
    | none => some false
    | some e =>
      if e.link.output_id == target then some true
      else wccWalk edges target e.link.output_id fuel

/-- Models `Genome.would_create_cycle(new_link)`: walk from `new_link.output_id`
looking for `new_link.input_id`. -/
def Genome.would_create_cycle (g : Genome) (new_link : Link) (fuel : Nat) :
    Option Bool :=
  wccWalk g.edges new_link.input_id new_link.output_id fuel

/-- The enabled edges of a genome (used to state the cycle-check claim; the
source's forward pass filters on `is_enabled` the same way). -/
def enabledEdges (g : Genome) : List Edge := g.edges.filter (fun e => e.is_enabled)

/-- Directed reachability through a list of edges: there is a nonempty path
from `a` to `b` following edges of `E` forwards. -/
inductive Reaches (E : List Edge) : Nat → Nat → Prop
  | base {e : Edge} (h : e ∈ E) : Reaches E e.link.input_id e.link.output_id
  | step {e : Edge} {c : Nat} (h : e ∈ E)
      (rest : Reaches E e.link.output_id c) : Reaches E e.link.input_id c

/-! ### Feed-forward evaluator (src/nn/ffn.py)

`node_outputs` is a Python dict keyed by node id; it is modelled as an
association list whose construction goes through `dictSet` (assignment: replace
the value in place when the key is present, append otherwise — exactly Python
dict assignment), so keys stay unique.  A failed dict lookup (KeyError) or a
failed list index (IndexError) makes the evaluation return `none`. -/

/-- Association-list model of a Python dict with Nat keys and ℚ values. -/
abbrev Dict := List (Nat × ℚ)

/-- Dict read `d[k]`: `none` models KeyError. -/
def dictLookup (d : Dict) (k : Nat) : Option ℚ :=
  (d.find? (fun p => p.1 == k)).map Prod.snd

/-- Dict assignment `d[k] = v`: overwrite in place when present, append
otherwise. -/
def dictSet (d : Dict) (k : Nat) (v : ℚ) : Dict :=
  if d.any (fun p => p.1 == k) then
    d.map (fun p => if p.1 == k then (k, v) else p)
  else d ++ [(k, v)]

/-- The keys of a dict. -/
def dictKeys (d : Dict) : List Nat := d.map Prod.fst

/-- Models `self.node_map = {node.id: node for node in self.nodes}` — on duplicate
ids the later entry wins, hence the reversed search.  (The evaluator copies
`genome.nodes`, `genome.edges`, `in_features` and `out_features` into
instance attributes and never reads the node counter, so the helpers below
take exactly those components.) -/
def nodeMap (nodes : List Node) (node_id : Nat) : Option Node :=
  nodes.reverse.find? (fun n => n.id == node_id)

/-- The dependency list `dependencies[node_id]` built in
`_get_topological_order`: input ids of the enabled edges into `node_id`, in
edge-list order.  (The source's guard skipping edges whose output id is not a
node id only matters for keys that are never queried.) -/
def nodeDeps (edges : List Edge) (node_id : Nat) : List Nat :=
  (edges.filter (fun e => e.is_enabled && e.link.output_id == node_id)).map
    (fun e => e.link.input_id)

/-- One scan of `for node_id in list(remaining)` inside the while loop:
promote every node whose dependencies are all visited, threading the growing
`visited` set through the scan (the source updates `visited` inside the loop).
Returns (promoted ids in scan order, final visited, nodes still remaining). -/
def topoPass (dep : Nat → List Nat) :
    List Nat → List Nat → List Nat × List Nat × List Nat
  | visited, [] => ([], visited, [])
  | visited, n :: rest =>
    if (dep n).all (fun d => visited.contains d) then
      let r := topoPass dep (visited ++ [n]) rest
      (n :: r.1, r.2.1, r.2.2)
    else
      let r := topoPass dep visited rest
      (r.1, r.2.1, n :: r.2.2)

/-- The `while remaining:` loop: stop when remaining is empty; when a full
scan promotes nothing, append the remainder in its current order and stop
(the source's cycle fallback).  Fuel bounds the iteration count; it is called
with `remaining.length + 1`, which can never be exhausted because every
recursive step has promoted at least one node, but for totality the fuel-0
case also appends the remainder. -/
def topoLoop (dep : Nat → List Nat) :
    List Nat → List Nat → List Nat → Nat → List Nat
  | order, _, remaining, 0 => order ++ remaining
  | order, visited, remaining, fuel + 1 =>
    if remaining.isEmpty then order
    else
      let r := topoPass dep visited remaining
      if r.1.isEmpty then order ++ r.2.2
      else topoLoop dep (order ++ r.1) r.2.1 r.2.2 fuel

/-- Models `FeedForwardNetwork._get_topological_order`: seed the order with the input
ids `1..in_features`, set `remaining = set(node ids) - visited`, then run the
promotion loop.  CPython iterates a set of small ints in an unspecified order;
the embedding uses the node-list order with duplicates removed, and no claim
proved below depends on the order of the unresolved remainder. -/
def getTopologicalOrder (nodes : List Node) (edges : List Edge)
    (input_size : Nat) : List Nat :=
  let order := pyRange 1 (input_size + 1)
  let remaining := ((nodes.map Node.id).filter (fun i => !(order.contains i))).dedup
  topoLoop (nodeDeps edges) order order remaining (remaining.length + 1)

/-- The weighted-sum loop in `forward`: over all edges, add
`node_outputs[edge.link.input_id] * edge.weight` for the enabled edges into
`node_id`; a missing source key is a KeyError. -/
def weightedSum (d : Dict) (node_id : Nat) (acc : ℚ) : List Edge → Option ℚ
  | [] => some acc
  | e :: rest =>
    if e.is_enabled && e.link.output_id == node_id then
      match dictLookup d e.link.input_id with
      | none => none
      | some v => weightedSum d node_id (acc + v * e.weight) rest
    else weightedSum d node_id acc rest

/-- Models `node_outputs = {node.id: 0.0 for node in self.nodes}` (later duplicate
keys win, as in a Python dict comprehension). -/
def initZeros (d : Dict) : List Node → Dict
  | [] => d
  | n :: rest => initZeros (dictSet d n.id 0) rest

/-- Models `for i in range(1, input_size + 1): node_outputs[i] = inputs[i - 1]`;
an out-of-range list index is an IndexError. -/
def setInputs (inputs : List ℚ) : Dict → List Nat → Option Dict
  | d, [] => some d
  | d, i :: rest =>
    match inputs.get? (i - 1) with
    | none => none
    | some v => setInputs inputs (dictSet d i v) rest

/-- The body of the processing loop in `forward` for one node id: look the
node up in `node_map` (KeyError on miss), compute the weighted sum of enabled
incoming edges, add the bias (every Node has one), apply the activation, and
store the result. -/
def processNode (nodes : List Node) (edges : List Edge) (d : Dict)
    (node_id : Nat) : Option Dict :=
  match nodeMap nodes node_id with
  | none => none
  | some node =>
    match weightedSum d node_id 0 edges with
    | none => none
    | some s => some (dictSet d node_id (applyAct node.activation (s + node.bias)))

/-- Models `for node_id in node_order: ...` -/
def processNodes (nodes : List Node) (edges : List Edge) :
    Dict → List Nat → Option Dict
  | d, [] => some d
  | d, nid :: rest =>
    match processNode nodes edges d nid with
    | none => none
    | some d2 => processNodes nodes edges d2 rest

/-- The output-collection loop: `node_outputs[i]` for
`i in range(input_size + 1, input_size + output_size + 1)`, in ascending id
order; a missing output id is a KeyError. -/
def collectOutputs (d : Dict) : List Nat → Option (List ℚ)
  | [] => some []
  | i :: rest =>
    match dictLookup d i, collectOutputs d rest with
    | some v, some l => some (v :: l)
    | _, _ => none

/-- Models `FeedForwardNetwork.forward(inputs)`: initialize every node's running
value to 0, write the input vector onto ids `1..in_features`, process the
topological order with its input prefix sliced off, and collect the output
ids.  `none` models a raised KeyError / IndexError. -/
def Genome.forward (g : Genome) (inputs : List ℚ) : Option (List ℚ) :=
  let d0 := initZeros [] g.nodes
  match setInputs inputs d0 (pyRange 1 (g.in_features + 1)) with
  | none => none
  | some d1 =>
    let node_order := (getTopologicalOrder g.nodes g.edges g.in_features).drop g.in_features
    match processNodes g.nodes g.edges d1 node_order with
    | none => none
    | some d2 =>
      collectOutputs d2 (pyRange (g.in_features + 1) (g.in_features + g.out_features + 1))

/-! ### Evolutionary operators
(src/nn/evolutionary_operators.py and src/neat/evolutionary_operators.py; the
two modules define identical crossover and mutation bodies, the nn version
taking Individuals for crossover and the neat version taking Genomes and
explicit rate/scale parameters for mutate). -/

/-- Individual from src/nn/individual.py. -/
structure Individual where
  genome : Genome
  fitness : ℚ
deriving DecidableEq, Repr

/-- Models `crossover_node(a, b)`: same id, bias and activation each drawn by
`random.choice` between a's and b's; the Bool draw picks a's value when true. -/
def crossover_node (a b : Node) (pick_bias pick_act : Bool) : Node :=
  { id := a.id
    bias := if pick_bias then a.bias else b.bias
    activation := if pick_act then a.activation else b.activation }

/-- Models `crossover_edge(a, b)`: same link, weight and enabled flag each drawn by
`random.choice` between a's and b's. -/
def crossover_edge (a b : Edge) (pick_weight pick_enabled : Bool) : Edge :=
  { link := a.link
    weight := if pick_weight then a.weight else b.weight
    is_enabled := if pick_enabled then a.is_enabled else b.is_enabled }

/-- Models `crossover(dominant, recessive)` from src/nn/evolutionary_operators.py:
offspring starts as `Genome(dominant.in_features, dominant.out_features)`;
every dominant node is appended, either unchanged (id absent from recessive —
`find_node` returns None) or crossed with the first recessive node of that id;
then the same for edges matched by Link.  The four draw functions give the
`random.choice` outcomes for the node / edge at each position of dominant's
lists (true picks the dominant value). -/
def crossover (dominant recessive : Individual)
    (nodeBias nodeAct edgeWeight edgeEnabled : Nat → Bool) : Genome :=
  let offspring := Genome.new dominant.genome.in_features dominant.genome.out_features
  let offspring :=
    { offspring with
      nodes := dominant.genome.nodes.mapIdx (fun i (node : Node) =>
        match recessive.genome.find_node node.id with
        | none => node
        | some node_recessive =>
          crossover_node node node_recessive (nodeBias i) (nodeAct i)) }
  { offspring with
    edges := dominant.genome.edges.mapIdx (fun i (edge : Edge) =>
      match recessive.genome.find_edge edge.link with
      | none => edge
      | some edge_recessive =>
        crossover_edge edge edge_recessive (edgeWeight i) (edgeEnabled i)) }

/-- Re-enable the first edge with the given link, in place — this is what
`existing_edge.is_enabled = True` does to the object `find_edge` returned. -/
def enableFirst (link : Link) : List Edge → List Edge
  | [] => []
  | e :: rest =>
    if e.link == link then { e with is_enabled := true } :: rest
    else e :: enableFirst link rest

/-- Models `mutate_add_edge(genome)`: candidate destinations are
`get_hidden_nodes() + get_output_nodes()`; no-op when that list is empty.
The source id is `random.choice(range(1, in_features + 1))` and the
destination `random.choice` over the candidate list, both modelled by chosen
indices (`none` is unreachable for the index draws of an actual run).  The
source's resampling loop `while input_id == output_id` never iterates: every
candidate destination id is at least `in_features + 1` while the source id is
at most `in_features`.  An existing link is re-enabled; a link that would
create a cycle is rejected; otherwise a fresh enabled edge with the drawn
weight is appended. -/
def mutate_add_edge (g : Genome) (in_choice out_choice : Nat)
    (weight_draw : ℚ) : Genome :=
  let in_id_range := g.get_hidden_nodes ++ g.get_output_nodes
  if in_id_range.isEmpty then g
  else
    match (pyRange 1 (g.in_features + 1)).get? in_choice,
        in_id_range.get? out_choice with
    | some input_id, some output_id =>
      let new_link : Link := ⟨input_id, output_id⟩
      match g.find_edge new_link with
      | some _ => { g with edges := enableFirst new_link g.edges }
      | none =>
        match g.would_create_cycle new_link (g.edges.length + 1) with
        | some true => g
        | _ => g.add_edge ⟨new_link, weight_draw, true⟩
    | _, _ => g

/-- Models `mutate_add_node(genome)`: no-op on an edgeless genome; otherwise pick an
edge (`random.choice`, modelled by its index), disable it in place, allocate a
new node from the genome's node counter with a drawn bias and relu activation,
and append the two bridging edges (old source → new node, weight 1) and
(new node → old destination, old weight). -/
def mutate_add_node (g : Genome) (edge_choice : Nat) (bias_draw : ℚ) : Genome :=
  if g.edges.isEmpty then g
  else
    match g.edges.get? edge_choice with
    | none => g
    | some old_edge =>
      let g1 := { g with edges := g.edges.set edge_choice { old_edge with is_enabled := false } }
      let inc := g1.node_counter.increment
      let new_node : Node := { id := inc.1, bias := bias_draw, activation := Act.relu }
      let g2 := { g1 with node_counter := inc.2 }
      let g3 := g2.add_node new_node
      let g4 := g3.add_edge ⟨⟨old_edge.link.input_id, new_node.id⟩, 1, true⟩
      g4.add_edge ⟨⟨new_node.id, old_edge.link.output_id⟩, old_edge.weight, true⟩

/-- Models `mutate_remove_node(genome)`: no-op when `get_hidden_nodes()` is empty;
otherwise remove the hidden id chosen by `random.choice` (modelled by its
index into the hidden list). -/
def mutate_remove_node (g : Genome) (choice : Nat) : Genome :=
  let hidden := g.get_hidden_nodes
  if hidden.isEmpty then g
  else
    match hidden.get? choice with
    | none => g
    | some node_id => g.remove_node node_id

/-- Models `mutate_weights(genome, mutation_rate, mutation_scale)` from
src/neat/evolutionary_operators.py — the declared parameter order.  Each
edge's weight is perturbed when its uniform draw `gate i` is below the
`mutation_rate` parameter, by `np.random.normal(0, mutation_scale)`, modelled
as `mutation_scale * z i` with `z i` the standard-normal draw. -/
def mutate_weights (g : Genome) (mutation_rate mutation_scale : ℚ)
    (gate z : Nat → ℚ) : Genome :=
  { g with
    edges := g.edges.mapIdx (fun i (e : Edge) =>
      if gate i < mutation_rate then
        { e with weight := e.weight + mutation_scale * z i }
      else e) }

/-- Models `mutate_bias(genome, mutation_rate, mutation_scale)`: per-node analogue of
`mutate_weights`. -/
def mutate_bias (g : Genome) (mutation_rate mutation_scale : ℚ)
    (gate z : Nat → ℚ) : Genome :=
  { g with
    nodes := g.nodes.mapIdx (fun i (n : Node) =>
      if gate i < mutation_rate then
        { n with bias := n.bias + mutation_scale * z i }
      else n) }

/-- Models `mutate(genome, mutation_rate, mutation_scale)` from
src/neat/evolutionary_operators.py.  The three structural mutations are gated
by `random.random() < mutation_rate` (draws r1, r2, r3).  The two sweeps are
called exactly as in the source, lines 116-117:
`mutate_weights(genome, mutation_scale, mutation_rate)` and
`mutate_bias(genome, mutation_scale, mutation_rate)` — note the order of the
two floats at the call sites relative to the declared parameter order. -/
def mutate (g : Genome) (mutation_rate mutation_scale : ℚ)
    (r1 r2 r3 : ℚ)
    (addEdgeIn addEdgeOut : Nat) (addEdgeWeight : ℚ)
    (addNodeChoice : Nat) (addNodeBias : ℚ)
    (removeChoice : Nat)
    (wGate wZ bGate bZ : Nat → ℚ) : Genome :=
  let g1 := if r1 < mutation_rate then mutate_add_edge g addEdgeIn addEdgeOut addEdgeWeight else g
  let g2 := if r2 < mutation_rate then mutate_add_node g1 addNodeChoice addNodeBias else g1
  let g3 := if r3 < mutation_rate then mutate_remove_node g2 removeChoice else g2
  let g4 := mutate_weights g3 mutation_scale mutation_rate wGate wZ
  mutate_bias g4 mutation_scale mutation_rate bGate bZ

/-- The node-allocating loops of `Genome.initialize_genome`: `count` times,
append `Node(node_counter.increment(), 0, relu)`. -/
def allocNodes (g : Genome) : Nat → Genome
  | 0 => g
  | count + 1 =>
    let inc := g.node_counter.increment
    allocNodes
      { g with
        node_counter := inc.2
        nodes := g.nodes ++ [⟨inc.1, 0, Act.relu⟩] }
      count

/-- Models `Genome.initialize_genome` (src/nn/genome.py): allocate `in_features` then
`out_features` nodes with bias 0 and relu, then add an enabled edge
`Link(i, in_features + j)` for each `i` in `1..in_features`, `j` in
`1..out_features`, with weight `random.random() * sqrt(2 / in_features)`
modelled by the supplied draw for each edge position. -/
def Genome.init_genome (g : Genome) (weights : Nat → ℚ) : Genome :=
  let g1 := allocNodes g g.in_features
  let g2 := allocNodes g1 g1.out_features
  let links := (pyRange 1 (g2.in_features + 1)).flatMap (fun i =>
    (pyRange 1 (g2.out_features + 1)).map (fun j => Link.mk i (g2.in_features + j)))
  { g2 with edges := g2.edges ++ links.mapIdx (fun k l => Edge.mk l (weights k) true) }

/-! ### Persistence codec (src/utils/serialization.py)
The JSON file layer (paths, json.dump/load) is external I/O; the embedding
covers the record format written and read back.  Python floats survive the
JSON round trip exactly (repr round-trips), so ℚ values are carried as is. -/

/-- One serialized node record: id, bias, activation name. -/
structure SerializedNode where
  id : Nat
  bias : ℚ
  activation : String
deriving DecidableEq, Repr

/-- One serialized edge record. -/
structure SerializedEdge where
  input_id : Nat
  output_id : Nat
  weight : ℚ
  is_enabled : Bool
deriving DecidableEq, Repr

/-- One serialized genome record. -/
structure SerializedGenome where
  in_features : Nat
  out_features : Nat
  node_counter : Nat
  nodes : List SerializedNode
  edges : List SerializedEdge
deriving DecidableEq, Repr

/-- Models `REVERSE_ACTIVATION_MAP.get(node.activation, "relu")`: the registry names
of the two activations (an unknown callable would default to "relu"; the Act
type is the closed registry, so both cases are in the map). -/
def actName : Act → String
  | Act.relu => "relu"
  | Act.softmax => "softmax"

/-- Models `ACTIVATION_MAP.get(name, relu)`: "softmax" parses to softmax, anything
else (including "relu") yields relu. -/
def nameAct (s : String) : Act :=
  if s == "softmax" then Act.softmax else Act.relu

/-- The per-genome body of `serialize_population`: record `in_features`,
`out_features`, `node_counter.value`, and the node and edge lists in order. -/
def serializeGenome (g : Genome) : SerializedGenome :=
  { in_features := g.in_features
    out_features := g.out_features
    node_counter := g.node_counter.read
    nodes := g.nodes.map (fun n => ⟨n.id, n.bias, actName n.activation⟩)
    edges := g.edges.map (fun e =>
      ⟨e.link.input_id, e.link.output_id, e.weight, e.is_enabled⟩) }

/-- The per-genome body of `deserialize_population`: build
`Genome(in_features, out_features)`, assign `node_counter.value` (an instance
attribute write), then `add_node` / `add_edge` every record in order. -/
def deserializeGenome (sg : SerializedGenome) : Genome :=
  let g := Genome.new sg.in_features sg.out_features
  let g := { g with node_counter := ⟨some sg.node_counter⟩ }
  let g := sg.nodes.foldl
    (fun g nd => g.add_node ⟨nd.id, nd.bias, nameAct nd.activation⟩) g
  sg.edges.foldl
    (fun g ed => g.add_edge ⟨⟨ed.input_id, ed.output_id⟩, ed.weight, ed.is_enabled⟩) g

/-- Models `serialize_population`: the list of genome records, in population order. -/
def serialize_population (population : List Genome) : List SerializedGenome :=
  population.map serializeGenome

/-- Models `deserialize_population`: rebuild every genome record, in order. -/
def deserialize_population (records : List SerializedGenome) : List Genome :=
  records.map deserializeGenome

/-! ### Population controller (src/population_controller.py)
`evolve_population` is embedded over the settings constants from
src/settings.py and the survivor list produced by
`roulette_wheel_selection` (whose length is `int(len(population) *
selection_amount)` — `random.choices(k=...)` always returns exactly k
elements when total fitness is positive).

The method imports `crossover` and `mutate` from nn.evolutionary_operators
(the module present in src/), whose signatures are
`crossover(dominant: Individual, recessive: Individual)` and
`mutate(genome)`.  The call sites in the reproduction loop pass raw Genomes
and three arguments: `crossover(parent1_genome, parent2_genome)` (line 67)
and `mutate(child_genome, mutation_rate, mutation_scale)` (line 73).  So as
soon as the loop body runs, `crossover` evaluates `dominant.genome` on a
Genome instance — which has no attribute `genome` — and raises
AttributeError (were that call to succeed, the mutate call would raise
TypeError for its extra arguments).  The embedding keeps the whole control
flow of the method and models the first raising expression of the loop body
explicitly; a raised exception propagates out of `evolve_population`, so the
final assignment to `self.population` on line 96 is never reached. -/

/-- Models the exceptions the reproduction loop can raise:
`random.sample(best_dinosaurs, 2)` raises ValueError when fewer than two
survivors exist, and the `crossover(parent1_genome, parent2_genome)` call
raises AttributeError because the imported
nn.evolutionary_operators.crossover immediately evaluates `dominant.genome`
on a Genome argument. -/
inductive PyError where
  | valueError
  | attributeError
deriving DecidableEq, Repr

/-- Models `settings.population_size` = 20. -/
def population_size : Nat := 20

/-- Models `settings.selection_amount` = 0.5 (exactly representable as a double). -/
def selection_amount : ℚ := 1 / 2

/-- Models `settings.stagnation_replacement_percentage` = 0.2. -/
def stagnation_replacement_percentage : ℚ := 1 / 5

/-- Models `int(len(population) * selection_amount)`: float truncation toward zero of
a nonnegative product; `n * 0.5` is exact in IEEE doubles for every list
length, so the rational floor is the Python value. -/
def rouletteCount (n : Nat) : Nat :=
  (⌊(n : ℚ) * selection_amount⌋).toNat

/-- Models `int(population_size * stagnation_replacement_percentage)`: the IEEE
evaluation of `int(20 * 0.2)` is 4, as is the rational floor used here. -/
def freshDinosCount : Nat :=
  (⌊(population_size : ℚ) * stagnation_replacement_percentage⌋).toNat

/-- Python slice `l[:-k]`: everything but the last k elements, except that
`l[:-0]` is `l[:0] = []`. -/
def pySliceDropLast {α : Type} (l : List α) (k : Nat) : List α :=
  if k == 0 then [] else l.take (l.length - k)

/-- Models `PopulationController.evolve_population` after the stagnation test
and the survivor selection.  When `population_size - len(best)` is positive,
the while loop's first iteration executes: `random.sample(best, 2)` raises
ValueError for fewer than two survivors, and otherwise the
`crossover(parent1_genome, parent2_genome)` call raises AttributeError
against the imported nn.evolutionary_operators signatures (see the section
comment), so the method never completes.  When no children are needed the
loop is skipped and the method finishes: on stagnation it extends the (empty)
child list with `freshDinosCount` copies of the single fresh dinosaur and
cuts the last `freshDinosCount` survivors, and finally it assigns
survivors + new population. -/
def evolve_population {α : Type} (best : List α) (is_stagnating : Bool)
    (freshDino : α) : Except PyError (List α) :=
  let num_children_needed := population_size - best.length
  if 0 < num_children_needed then
    if best.length < 2 then Except.error PyError.valueError
    else Except.error PyError.attributeError
  else
    let new_population : List α := []
    if is_stagnating then
      let new_population := new_population ++ List.replicate freshDinosCount freshDino
      let best := pySliceDropLast best freshDinosCount
      Except.ok (best ++ new_population)
    else
      Except.ok (best ++ new_population)

/-! ### Concrete genomes used by witnesses and counterexamples -/

/-- A 1-input/1-output genome as produced by `initialize_genome` with drawn
edge weight 1/2 (nodes 1 and 2 with bias 0 and relu, one enabled edge 1 → 2,
node counter at 3): the scenario genome of spec section 8. -/
def splitSceneGenome : Genome :=
  { node_counter := ⟨some 3⟩
    in_features := 1
    out_features := 1
    nodes := [⟨1, 0, Act.relu⟩, ⟨2, 0, Act.relu⟩]
    edges := [⟨⟨1, 2⟩, 1 / 2, true⟩] }

/-- The same shape with the edge weight and the output node's bias symbolic:
used to state the amended edge-split preservation claim. -/
def splitGenome (w b2 : ℚ) : Genome :=
  { node_counter := ⟨some 3⟩
    in_features := 1
    out_features := 1
    nodes := [⟨1, 0, Act.relu⟩, ⟨2, b2, Act.relu⟩]
    edges := [⟨⟨1, 2⟩, w, true⟩] }

/-- A 1-input/1-output genome whose only edge is the disabled edge 2 → 1
(as left behind by an edge split): no enabled edge exists at all. -/
def disabledEdgeGenome : Genome :=
  { node_counter := ⟨some 3⟩
    in_features := 1
    out_features := 1
    nodes := [⟨1, 0, Act.relu⟩, ⟨2, 0, Act.relu⟩]
    edges := [⟨⟨2, 1⟩, 1, false⟩] }

/-- A genome with one node and an edge whose destination id 5 has no node —
the dangling-edge shape that `mutate_add_edge`'s length-based hidden-id range
can create (see the TODO comment in src/nn/ffn.py). -/
def danglingEdgeGenome : Genome :=
  { node_counter := ⟨some 2⟩
    in_features := 1
    out_features := 0
    nodes := [⟨1, 0, Act.relu⟩]
    edges := [⟨⟨1, 5⟩, 1, true⟩] }

/-- A 1-input/1-output genome with a hidden node 3 spliced into the edge
1 → 2, all referenced nodes present. -/
def hiddenNodeGenome : Genome :=
  { node_counter := ⟨some 4⟩
    in_features := 1
    out_features := 1
    nodes := [⟨1, 0, Act.relu⟩, ⟨2, 0, Act.relu⟩, ⟨3, 1 / 2, Act.relu⟩]
    edges := [⟨⟨1, 2⟩, 1 / 2, false⟩, ⟨⟨1, 3⟩, 1, true⟩, ⟨⟨3, 2⟩, 1 / 2, true⟩] }

/-- The node-id stream of one run that constructs two genomes the way
`initialize_population` and crossover offspring do — each `Genome(1, 1)` call
makes its own `Counter()` whose writes shadow the class attribute. -/
def twoGenomeRunIds : List Nat :=
  let g1 := (Genome.new 1 1).init_genome (fun _ => 1)
  let g2 := (Genome.new 1 1).init_genome (fun _ => 1)
  g1.nodes.map Node.id ++ g2.nodes.map Node.id

/-! ### C2 — evolve_population leaves population_size individuals -/

/-- C2: the claim says that for every outgoing population of exactly
`population_size` individuals with positive total fitness whose roulette
selection yields at least two survivors, `evolve_population` ends with
exactly `population_size` individuals, stagnating or not.  On the code as
written this situation never completes at all: with 20 individuals the
selection returns 10 survivors, 10 children are needed, and the first
iteration of the reproduction loop raises AttributeError when the imported
nn.evolutionary_operators.crossover — typed for Individuals — evaluates
`dominant.genome` on the Genome it was handed, so the new generation is
never assembled (and the stagnation branch never runs). -/
theorem c2_theorem {α : Type} (pop best : List α) (is_stagnating : Bool)
    (freshDino : α)
    (hpop : pop.length = population_size)
    (hbest : best.length = rouletteCount pop.length)
    (_h2 : 2 ≤ best.length) :
    evolve_population best is_stagnating freshDino
      = Except.error PyError.attributeError := by
  have h20 : rouletteCount 20 = 10 := by
    norm_num [rouletteCount, selection_amount]
    decide
  have hb : best.length = 10 := by rw [hbest, hpop]; exact h20
  rw [evolve_population, hb]
  norm_num [population_size]

/-- C2 witness: a concrete population of 20 with 10 survivors, on which
evolve_population raises at the first crossover call. -/
theorem c2_witness :
    (List.range 20).length = population_size ∧
    (List.range 10).length = rouletteCount (List.range 20).length ∧
    2 ≤ (List.range 10).length ∧
    evolve_population (List.range 10) true 0 = Except.error PyError.attributeError :=
  ⟨by decide, by rw [show rouletteCount (List.range 20).length = 10 from by norm_num [rouletteCount, selection_amount]; decide]; decide, by decide,
    c2_theorem (List.range 20) (List.range 10) true 0
      (by decide) (by rw [show rouletteCount (List.range 20).length = 10 from by norm_num [rouletteCount, selection_amount]; decide]; decide) (by decide)⟩

/-! ### C3 — would_create_cycle and disabled edges -/

/-- No edge list, no path. -/
theorem reaches_nil_elim (a b : Nat) : ¬ Reaches [] a b := by
  intro h
  induction h with
  | base h => exact (List.not_mem_nil _ h)
  | step h _ ih => exact (List.not_mem_nil _ h)

/-- The walk only moves along edges of the list, so reaching the target
demonstrates a path over that list. -/
theorem wccWalk_reaches (edges : List Edge) (target : Nat) :
    ∀ (fuel current : Nat), wccWalk edges target current fuel = some true →
      Reaches edges current target := by
  intro fuel
  induction fuel with
  | zero => intro current h; simp [wccWalk] at h
  | succ n ih =>
    intro current h
    cases hfind : edges.find? (fun e => e.link.input_id == current) with
    | none => simp [wccWalk, hfind] at h
    | some e =>
      have hmem : e ∈ edges := List.mem_of_find?_eq_some hfind
      have hcur : e.link.input_id = current := by
        have := List.find?_some hfind
        simpa using this
      by_cases hout : e.link.output_id = target
      · have hr : Reaches edges e.link.input_id e.link.output_id := Reaches.base hmem
        rw [hcur, hout] at hr
        exact hr
      · have h2 : wccWalk edges target e.link.output_id n = some true := by
          simpa [wccWalk, hfind, hout] using h
        have hrest := ih e.link.output_id h2
        have hr := Reaches.step hmem hrest
        rwa [hcur] at hr


/-- C3: would_create_cycle returns True only when a directed path from the
candidate link's destination back to its source exists — but over the full
edge list: the source never consults is_enabled in this traversal, so the
guarantee is relative to enabled-and-disabled edges together, not to the
enabled subgraph alone (amended claim). -/
theorem c3_theorem (g : Genome) (new_link : Link) (fuel : Nat)
    (h : g.would_create_cycle new_link fuel = some true) :
    Reaches g.edges new_link.output_id new_link.input_id :=
  wccWalk_reaches g.edges new_link.input_id fuel new_link.output_id h

/-- C3 counterexample to the claim as stated: on a genome whose only edge is
the disabled edge 2 → 1, would_create_cycle(Link(1, 2)) returns True although
the enabled edges contain no path from 2 back to 1 — the check does produce a
false positive with respect to the enabled subgraph. -/
theorem c3_counterexample :
    disabledEdgeGenome.would_create_cycle ⟨1, 2⟩ 1 = some true ∧
    ¬ Reaches (enabledEdges disabledEdgeGenome) 2 1 := by
  constructor
  · decide
  · have h : enabledEdges disabledEdgeGenome = [] := by decide
    rw [h]
    exact reaches_nil_elim 2 1

/-- C3 witness: the amended theorem applied to the same concrete genome. -/
theorem c3_witness :
    disabledEdgeGenome.would_create_cycle ⟨1, 2⟩ 1 = some true ∧
    Reaches disabledEdgeGenome.edges 2 1 :=
  ⟨by decide, c3_theorem disabledEdgeGenome ⟨1, 2⟩ 1 (by decide)⟩

/-! ### C4 — get_hidden_nodes misses the first hidden id -/

/-- C4: the claim (and the method's own docstring, "all hidden nodes") says
get_hidden_nodes returns exactly the node ids above in_features +
out_features.  On the genome produced by an add-node mutation on the spec's
own scenario genome, node 3 exists, 3 is above in_features + out_features = 2,
yet get_hidden_nodes returns the empty list: the range starts one past the
first hidden id and its bound is the node count, so the freshly allocated
hidden node is never classified as hidden. -/
theorem c4_theorem :
    (mutate_add_node splitSceneGenome 0 (1 / 2)).get_hidden_nodes = [] ∧
    3 ∈ (mutate_add_node splitSceneGenome 0 (1 / 2)).nodes.map Node.id ∧
    (mutate_add_node splitSceneGenome 0 (1 / 2)).in_features +
        (mutate_add_node splitSceneGenome 0 (1 / 2)).out_features < 3 := by
  refine ⟨by decide, by decide, by decide⟩

/-! ### C5 — node-id allocation is not shared across genomes -/

/-- C5: the claim says a single run-wide monotonic counter hands out ids, so
no two increment calls of a run repeat an id.  In the code every
Genome.__init__ builds its own Counter(), and increment's `self.value += 1`
writes an instance attribute that shadows the class-level `value`, so the
class attribute never advances: constructing two genomes in one run allocates
the id streams [1, 2] and [1, 2] — the combined stream of the run has
duplicates. -/
theorem c5_theorem :
    twoGenomeRunIds = [1, 2, 1, 2] ∧ ¬ twoGenomeRunIds.Nodup := by
  refine ⟨by decide, by decide⟩

/-! ### C9 — mutate swaps rate and scale for the weight/bias sweeps -/

/-- C9: the claim says the per-gene Bernoulli gate uses the rate argument and
the noise standard deviation is the scale argument.  mutate's call sites pass
(mutation_scale, mutation_rate) into parameters declared (mutation_rate,
mutation_scale), so with rate 1/5 and scale 1/10: a weight-gate draw of 3/20
(below the rate, above the scale) leaves the single weight 1/2 untouched,
and a draw of 1/20 perturbs it by rate * z = 1/5 instead of scale * z = 1/10,
giving 7/10.  Structural-gate draws are 1 (no structural mutation fires). -/
theorem c9_theorem :
    (mutate splitSceneGenome (1 / 5) (1 / 10) 1 1 1 0 0 0 0 0 0
        (fun _ => 3 / 20) (fun _ => 1) (fun _ => 1) (fun _ => 0)).edges.map Edge.weight
      = [1 / 2] ∧
    (mutate splitSceneGenome (1 / 5) (1 / 10) 1 1 1 0 0 0 0 0 0
        (fun _ => 1 / 20) (fun _ => 1) (fun _ => 1) (fun _ => 0)).edges.map Edge.weight
      = [7 / 10] := by
  constructor <;>
    norm_num [mutate, mutate_weights, mutate_bias, mutate_add_edge, mutate_add_node,
      mutate_remove_node, splitSceneGenome, Genome.get_hidden_nodes,
      Genome.get_output_nodes, Genome.remove_node, pyRange]

/-! ### C10 — remove_node cascade -/

/-- After erasing the first node carrying the id, no node with that id is
found, provided node ids are duplicate-free. -/
theorem find_eraseP_none (k : Nat) :
    ∀ l : List Node, (l.map Node.id).Nodup →
      (l.eraseP (fun n => n.id == k)).find? (fun n => n.id == k) = none := by
  intro l
  induction l with
  | nil => intro _; rfl
  | cons a t ih =>
    intro hnd
    rw [List.map_cons, List.nodup_cons] at hnd
    by_cases ha : a.id = k
    · have hpa : (a.id == k) = true := by simpa using ha
      rw [List.eraseP_cons, hpa]
      rw [List.find?_eq_none]
      intro x hx
      have hxm : x.id ∈ t.map Node.id := List.mem_map_of_mem Node.id hx
      intro hxk
      have hxid : x.id = k := by simpa using hxk
      rw [hxid, ← ha] at hxm
      exact hnd.1 hxm
    · have hpa : (a.id == k) = false := by simpa using ha
      rw [List.eraseP_cons, hpa]
      simp only [cond_false]
      rw [List.find?_cons_of_neg _ (by simpa using ha)]
      exact ih hnd.2

/-- C10 (amended): for a genome whose node ids are duplicate-free, if a node
with the id exists then after remove_node(id) no node with that id remains and
no remaining edge touches it as source or destination; and if no node with the
id exists, remove_node is a no-op leaving the genome unchanged (so an edge
referencing an absent id survives — hence the added presence condition). -/
theorem c10_theorem (g : Genome) (node_id : Nat)
    (hids : (g.nodes.map Node.id).Nodup) :
    (g.find_node node_id ≠ none →
      (g.remove_node node_id).find_node node_id = none ∧
      ∀ e ∈ (g.remove_node node_id).edges,
        e.link.input_id ≠ node_id ∧ e.link.output_id ≠ node_id) ∧
    (g.find_node node_id = none → g.remove_node node_id = g) := by
  constructor
  · intro hsome
    cases hfind : g.find_node node_id with
    | none => exact absurd hfind hsome
    | some n =>
      constructor
      · show Genome.find_node _ _ = none
        simp only [Genome.remove_node, hfind]
        exact find_eraseP_none node_id g.nodes hids
      · intro e he
        simp only [Genome.remove_node, hfind] at he
        have := List.of_mem_filter he
        constructor <;> intro hEq <;> simp [hEq] at this
  · intro hnone
    simp [Genome.remove_node, hnone]

/-- C10 counterexample to the claim as stated: with an edge into the absent
id 5, remove_node(5) is a no-op, so an edge whose destination equals 5 is
still present afterwards — the cascade conclusion fails for absent ids. -/
theorem c10_counterexample :
    danglingEdgeGenome.remove_node 5 = danglingEdgeGenome ∧
    ¬ (∀ e ∈ (danglingEdgeGenome.remove_node 5).edges,
        e.link.input_id ≠ 5 ∧ e.link.output_id ≠ 5) := by
  refine ⟨by decide, by decide⟩

/-- C10 witness: removing the hidden node 3 of a concrete genome erases the
node and all three of its incident edges. -/
theorem c10_witness :
    (hiddenNodeGenome.nodes.map Node.id).Nodup ∧
    hiddenNodeGenome.find_node 3 ≠ none ∧
    ((hiddenNodeGenome.remove_node 3).find_node 3 = none ∧
      ∀ e ∈ (hiddenNodeGenome.remove_node 3).edges,
        e.link.input_id ≠ 3 ∧ e.link.output_id ≠ 3) :=
  ⟨by decide, by decide,
    (c10_theorem hiddenNodeGenome 3 (by decide)).1 (by decide)⟩

/-! ### C6 — crossover gene alignment -/

/-- An index-aware map that never changes a node's id leaves the id list
unchanged. -/
theorem mapIdx_map_node_id :
    ∀ (l : List Node) (f : Nat → Node → Node),
      (∀ i n, (f i n).id = n.id) →
      (l.mapIdx f).map Node.id = l.map Node.id := by
  intro l
  induction l with
  | nil => intro f _; rfl
  | cons a t ih =>
    intro f hf
    rw [List.mapIdx_cons, List.map_cons, List.map_cons, hf 0 a,
      ih (fun i n => f (i + 1) n) (fun i n => hf (i + 1) n)]

/-- An index-aware map that never changes an edge's link leaves the link list
unchanged. -/
theorem mapIdx_map_edge_link :
    ∀ (l : List Edge) (f : Nat → Edge → Edge),
      (∀ i e, (f i e).link = e.link) →
      (l.mapIdx f).map Edge.link = l.map Edge.link := by
  intro l
  induction l with
  | nil => intro f _; rfl
  | cons a t ih =>
    intro f hf
    rw [List.mapIdx_cons, List.map_cons, List.map_cons, hf 0 a,
      ih (fun i e => f (i + 1) e) (fun i e => hf (i + 1) e)]

/-- Every element of a list has its image (at some index) in the mapIdx. -/
theorem exists_mapIdx_mem {β : Type} :
    ∀ (l : List β) (f : Nat → β → β) (x : β), x ∈ l → ∃ i, f i x ∈ l.mapIdx f := by
  intro l
  induction l with
  | nil => intro f x hx; exact absurd hx (List.not_mem_nil x)
  | cons a t ih =>
    intro f x hx
    rw [List.mapIdx_cons]
    rcases List.mem_cons.mp hx with h | h
    · exact ⟨0, by rw [h]; exact List.mem_cons_self _ _⟩
    · rcases ih (fun i => f (i + 1)) x h with ⟨i, hi⟩
      exact ⟨i + 1, List.mem_cons_of_mem _ hi⟩

/-- C6: crossover offspring carry exactly the dominant parent's gene ids, one
gene per id; an id the recessive parent lacks is inherited unchanged from the
dominant parent; a shared id gets a bias that is one of the two parents'
biases and an activation that is one of the two parents' activations, never a
blend; an id the dominant parent lacks is absent.  The same holds for edges
matched by Link with weight and enabled flag. -/
theorem c6_theorem (dominant recessive : Individual)
    (nb na ew ee : Nat → Bool)
    (hnodes : (dominant.genome.nodes.map Node.id).Nodup)
    (hedges : (dominant.genome.edges.map Edge.link).Nodup) :
    ((crossover dominant recessive nb na ew ee).nodes.map Node.id
        = dominant.genome.nodes.map Node.id
      ∧ ((crossover dominant recessive nb na ew ee).nodes.map Node.id).Nodup)
    ∧ (∀ n ∈ dominant.genome.nodes,
        (recessive.genome.find_node n.id = none →
          n ∈ (crossover dominant recessive nb na ew ee).nodes)
        ∧ ∀ nr, recessive.genome.find_node n.id = some nr →
            ∃ n2 ∈ (crossover dominant recessive nb na ew ee).nodes,
              n2.id = n.id
              ∧ (n2.bias = n.bias ∨ n2.bias = nr.bias)
              ∧ (n2.activation = n.activation ∨ n2.activation = nr.activation))
    ∧ (∀ i : Nat, i ∉ dominant.genome.nodes.map Node.id →
        (crossover dominant recessive nb na ew ee).find_node i = none)
    ∧ ((crossover dominant recessive nb na ew ee).edges.map Edge.link
        = dominant.genome.edges.map Edge.link
      ∧ ((crossover dominant recessive nb na ew ee).edges.map Edge.link).Nodup)
    ∧ (∀ e ∈ dominant.genome.edges,
        (recessive.genome.find_edge e.link = none →
          e ∈ (crossover dominant recessive nb na ew ee).edges)
        ∧ ∀ er, recessive.genome.find_edge e.link = some er →
            ∃ e2 ∈ (crossover dominant recessive nb na ew ee).edges,
              e2.link = e.link
              ∧ (e2.weight = e.weight ∨ e2.weight = er.weight)
              ∧ (e2.is_enabled = e.is_enabled ∨ e2.is_enabled = er.is_enabled))
    ∧ (∀ l : Link, l ∉ dominant.genome.edges.map Edge.link →
        (crossover dominant recessive nb na ew ee).find_edge l = none) := by
  have hNodeIdF : ∀ i n,
      ((fun i (node : Node) =>
          match recessive.genome.find_node node.id with
          | none => node
          | some node_recessive =>
            crossover_node node node_recessive (nb i) (na i)) i n).id = n.id := by
    intro i n
    cases h : recessive.genome.find_node n.id <;> simp [h, crossover_node]
  have hEdgeLinkF : ∀ i e,
      ((fun i (edge : Edge) =>
          match recessive.genome.find_edge edge.link with
          | none => edge
          | some edge_recessive =>
            crossover_edge edge edge_recessive (ew i) (ee i)) i e).link = e.link := by
    intro i e
    cases h : recessive.genome.find_edge e.link <;> simp [h, crossover_edge]
  have hN : (crossover dominant recessive nb na ew ee).nodes.map Node.id
      = dominant.genome.nodes.map Node.id :=
    mapIdx_map_node_id dominant.genome.nodes _ hNodeIdF
  have hE : (crossover dominant recessive nb na ew ee).edges.map Edge.link
      = dominant.genome.edges.map Edge.link :=
    mapIdx_map_edge_link dominant.genome.edges _ hEdgeLinkF
  refine ⟨⟨hN, hN ▸ hnodes⟩, ?_, ?_, ⟨hE, hE ▸ hedges⟩, ?_, ?_⟩
  · intro n hn
    constructor
    · intro hmiss
      rcases exists_mapIdx_mem dominant.genome.nodes
          (fun i (node : Node) =>
            match recessive.genome.find_node node.id with
            | none => node
            | some node_recessive =>
              crossover_node node node_recessive (nb i) (na i)) n hn with ⟨i, hi⟩
      simpa [crossover, hmiss] using hi
    · intro nr hhit
      rcases exists_mapIdx_mem dominant.genome.nodes
          (fun i (node : Node) =>
            match recessive.genome.find_node node.id with
            | none => node
            | some node_recessive =>
              crossover_node node node_recessive (nb i) (na i)) n hn with ⟨i, hi⟩
      refine ⟨crossover_node n nr (nb i) (na i), ?_, by simp [crossover_node],
        ?_, ?_⟩
      · simpa [crossover, hhit] using hi
      · cases h : nb i <;> simp [crossover_node, h]
      · cases h : na i <;> simp [crossover_node, h]
  · intro i hi
    rw [Genome.find_node, List.find?_eq_none]
    intro x hx hbeq
    have hxid : x.id = i := by simpa using hbeq
    have : x.id ∈ (crossover dominant recessive nb na ew ee).nodes.map Node.id :=
      List.mem_map_of_mem Node.id hx
    rw [hN, hxid] at this
    exact hi this
  · intro e he
    constructor
    · intro hmiss
      rcases exists_mapIdx_mem dominant.genome.edges
          (fun i (edge : Edge) =>
            match recessive.genome.find_edge edge.link with
            | none => edge
            | some edge_recessive =>
              crossover_edge edge edge_recessive (ew i) (ee i)) e he with ⟨i, hi⟩
      simpa [crossover, hmiss] using hi
    · intro er hhit
      rcases exists_mapIdx_mem dominant.genome.edges
          (fun i (edge : Edge) =>
            match recessive.genome.find_edge edge.link with
            | none => edge
            | some edge_recessive =>
              crossover_edge edge edge_recessive (ew i) (ee i)) e he with ⟨i, hi⟩
      refine ⟨crossover_edge e er (ew i) (ee i), ?_, by simp [crossover_edge],
        ?_, ?_⟩
      · simpa [crossover, hhit] using hi
      · cases h : ew i <;> simp [crossover_edge, h]
      · cases h : ee i <;> simp [crossover_edge, h]
  · intro l hl
    rw [Genome.find_edge, List.find?_eq_none]
    intro x hx hbeq
    have hxl : x.link = l := by simpa using hbeq
    have : x.link ∈ (crossover dominant recessive nb na ew ee).edges.map Edge.link :=
      List.mem_map_of_mem Edge.link hx
    rw [hE, hxl] at this
    exact hl this

/-- Dominant parent for the crossover witness: nodes 1 and 3, one edge. -/
def c6Dominant : Individual :=
  ⟨{ node_counter := ⟨some 5⟩
     in_features := 1
     out_features := 1
     nodes := [⟨1, 0, Act.relu⟩, ⟨3, 1, Act.relu⟩]
     edges := [⟨⟨1, 3⟩, 1, true⟩] }, 0⟩

/-- Recessive parent for the crossover witness: shares node 1 and the edge
link (1, 3) would not match node 3; node 4 is recessive-only. -/
def c6Recessive : Individual :=
  ⟨{ node_counter := ⟨some 5⟩
     in_features := 1
     out_features := 1
     nodes := [⟨1, 2, Act.softmax⟩, ⟨4, 2, Act.relu⟩]
     edges := [⟨⟨1, 3⟩, 2, false⟩] }, 0⟩

/-- C6 witness: the gene-alignment theorem applied to the two concrete
parents with the draws that always pick the recessive value. -/
theorem c6_witness :
    ((c6Dominant.genome.nodes.map Node.id).Nodup
      ∧ (c6Dominant.genome.edges.map Edge.link).Nodup)
    ∧ (crossover c6Dominant c6Recessive (fun _ => false) (fun _ => false)
          (fun _ => false) (fun _ => false)).nodes.map Node.id
        = c6Dominant.genome.nodes.map Node.id :=
  ⟨⟨by decide, by decide⟩,
    (c6_theorem c6Dominant c6Recessive (fun _ => false) (fun _ => false)
      (fun _ => false) (fun _ => false) (by decide) (by decide)).1.1⟩

/-! ### C7 — serialization round trip -/

/-- Folding `add_node` over serialized node records appends their decoded
nodes. -/
theorem foldl_add_node_eq (l : List SerializedNode) :
    ∀ g : Genome,
      l.foldl (fun g nd => g.add_node ⟨nd.id, nd.bias, nameAct nd.activation⟩) g
        = { g with
            nodes := g.nodes ++ l.map (fun nd => ⟨nd.id, nd.bias, nameAct nd.activation⟩) } := by
  induction l with
  | nil => intro g; simp
  | cons a t ih =>
    intro g
    rw [List.foldl_cons, ih]
    simp [Genome.add_node]

/-- Folding `add_edge` over serialized edge records appends their decoded
edges (and touches nothing else). -/
theorem foldl_add_edge_eq (l : List SerializedEdge) :
    ∀ g : Genome,
      l.foldl (fun g ed => g.add_edge ⟨⟨ed.input_id, ed.output_id⟩, ed.weight, ed.is_enabled⟩) g
        = { g with
            edges := g.edges ++ l.map (fun ed => ⟨⟨ed.input_id, ed.output_id⟩, ed.weight, ed.is_enabled⟩) } := by
  induction l with
  | nil => intro g; simp
  | cons a t ih =>
    intro g
    rw [List.foldl_cons, ih]
    simp [Genome.add_edge]

/-- Both registry activations survive name encoding and decoding. -/
theorem nameAct_actName (a : Act) : nameAct (actName a) = a := by
  cases a <;> rfl

/-- Deserializing a serialized genome reproduces it exactly, except that the
node counter's value now lives in the instance attribute (same observable
value). -/
theorem roundtrip_genome (g : Genome) :
    deserializeGenome (serializeGenome g)
      = { g with node_counter := ⟨some g.node_counter.read⟩ } := by
  unfold deserializeGenome serializeGenome
  dsimp only
  rw [foldl_add_node_eq, foldl_add_edge_eq]
  simp only [Genome.new, List.map_map]
  have hn : (fun n : Node => (⟨n.id, n.bias, nameAct (actName n.activation)⟩ : Node))
      = fun n : Node => n := by
    funext n
    rw [nameAct_actName]
  have he : (fun e : Edge =>
        (⟨⟨e.link.input_id, e.link.output_id⟩, e.weight, e.is_enabled⟩ : Edge))
      = fun e : Edge => e := by
    funext e
    rfl
  simp [Function.comp_def, hn, he]

/-- forward ignores the node counter. -/
theorem forward_counter_irrel (g : Genome) (c : Counter) :
    Genome.forward { g with node_counter := c } = g.forward := by
  cases g
  funext inputs
  rfl

/-- C7: deserializing a serialized population reproduces, position by
position, genomes with the same in_features, out_features and node-counter
value that evaluate identically on every input vector. -/
theorem c7_theorem (population : List Genome) (i : Nat) :
    ((deserialize_population (serialize_population population))[i]?.map
        (fun g => (g.in_features, g.out_features, g.node_counter.read))
      = population[i]?.map (fun g => (g.in_features, g.out_features, g.node_counter.read)))
    ∧ ∀ inputs : List ℚ,
        (deserialize_population (serialize_population population))[i]?.map
            (fun g => g.forward inputs)
          = population[i]?.map (fun g => g.forward inputs) := by
  unfold deserialize_population serialize_population
  rw [List.map_map]
  constructor
  · cases hp : population[i]? with
    | none => simp [List.getElem?_map, hp]
    | some g =>
      simp [List.getElem?_map, hp, Function.comp_def, roundtrip_genome, Counter.read]
  · intro inputs
    cases hp : population[i]? with
    | none => simp [List.getElem?_map, hp]
    | some g =>
      simp [List.getElem?_map, hp, Function.comp_def, roundtrip_genome,
        forward_counter_irrel]

/-! ### C1 — edge-split function preservation -/

/-- C1 counterexample to the claim as stated: on the spec's own 1-input,
1-output scenario genome (single enabled edge 1 → 2 of weight 1/2), an
add-node mutation whose bias draw is 1/2 changes the output on input [2.0]
from 1 to 5/4 — a difference of 1/4, far beyond floating tolerance, because
the new node computes relu(source + bias) with a random bias instead of
passing the source value through. -/
theorem c1_counterexample :
    splitSceneGenome.forward [2] = some [1]
    ∧ (mutate_add_node splitSceneGenome 0 (1 / 2)).forward [2] = some [5 / 4]
    ∧ (mutate_add_node splitSceneGenome 0 (1 / 2)).forward [2]
        ≠ splitSceneGenome.forward [2] := by
  refine ⟨?_, ?_, ?_⟩
  · with_unfolding_all rfl
  · with_unfolding_all rfl
  · with_unfolding_all decide

/-- C1 (amended): the edge split preserves the forward outputs at the instant
of mutation only under the conditions the counterexample forces: the new
node's drawn bias is 0 and the value flowing down the split edge is
nonnegative (so the inserted relu is transparent).  Stated on the
1-input/1-output genome family with arbitrary edge weight, output bias and
nonnegative input. -/
theorem c1_theorem (w b2 x : ℚ) (hx : 0 ≤ x) :
    (mutate_add_node (splitGenome w b2) 0 0).forward [x]
      = (splitGenome w b2).forward [x] := by
  have h1 : (splitGenome w b2).forward [x] = some [max 0 (0 + x * w + b2)] := rfl
  have h2 : (mutate_add_node (splitGenome w b2) 0 0).forward [x]
      = some [max 0 (0 + max 0 (0 + x * 1 + 0) * w + b2)] := rfl
  have hm : max 0 (0 + x * 1 + 0) = x := by
    rw [zero_add, mul_one, add_zero]
    exact max_eq_right hx
  rw [h1, h2, hm]

/-- C1 witness: the amended preservation at weight 1/2, output bias 0,
input 2. -/
theorem c1_witness :
    (0 : ℚ) ≤ 2
    ∧ (mutate_add_node (splitGenome (1 / 2) 0) 0 0).forward [2]
        = (splitGenome (1 / 2) 0).forward [2] :=
  ⟨by norm_num, c1_theorem (1 / 2) 0 2 (by norm_num)⟩

/-! ### C8 — forward terminates, never raises, returns out_features values -/

/-- dictSet keeps every existing key. -/
theorem mem_dictKeys_dictSet_of_mem {d : Dict} {k : Nat} {v : ℚ} {a : Nat}
    (h : a ∈ dictKeys d) : a ∈ dictKeys (dictSet d k v) := by
  unfold dictKeys at h ⊢
  unfold dictSet
  by_cases hany : d.any (fun p => p.1 == k)
  · rw [if_pos hany]
    rcases List.mem_map.mp h with ⟨p, hp, hpa⟩
    apply List.mem_map.mpr
    refine ⟨if p.1 == k then (k, v) else p, List.mem_map_of_mem _ hp, ?_⟩
    cases hc : (p.1 == k) with
    | true =>
      have : p.1 = k := by simpa using hc
      simp [hc, ← hpa, this]
    | false => simp [hc, hpa]
  · rw [if_neg hany, List.map_append]
    exact List.mem_append_left _ h

/-- dictSet makes its own key present. -/
theorem mem_dictKeys_dictSet_self (d : Dict) (k : Nat) (v : ℚ) :
    k ∈ dictKeys (dictSet d k v) := by
  unfold dictSet dictKeys
  by_cases hany : d.any (fun p => p.1 == k)
  · rw [if_pos hany]
    rcases List.any_eq_true.mp hany with ⟨p, hp, hpk⟩
    apply List.mem_map.mpr
    exact ⟨(k, v), List.mem_map.mpr ⟨p, hp, by rw [if_pos hpk]⟩, rfl⟩
  · rw [if_neg hany, List.map_append]
    exact List.mem_append_right _ (by simp)

/-- A present key makes the dict lookup succeed. -/
theorem dictLookup_some_of_mem {d : Dict} {a : Nat} (h : a ∈ dictKeys d) :
    ∃ q, dictLookup d a = some q := by
  unfold dictKeys at h
  rcases List.mem_map.mp h with ⟨p, hp, hpa⟩
  have hs : (d.find? (fun p => p.1 == a)).isSome := by
    rw [List.find?_isSome]
    exact ⟨p, hp, by simp [hpa]⟩
  rcases Option.isSome_iff_exists.mp hs with ⟨q, hq⟩
  exact ⟨q.2, by unfold dictLookup; rw [hq]; rfl⟩

/-- The zero-initialized node_outputs dict has every node id (and keeps any
key of the dict it extends). -/
theorem mem_dictKeys_initZeros :
    ∀ (nodes : List Node) (d : Dict) (a : Nat),
      a ∈ dictKeys d ∨ a ∈ nodes.map Node.id →
      a ∈ dictKeys (initZeros d nodes) := by
  intro nodes
  induction nodes with
  | nil =>
    intro d a h
    rcases h with h | h
    · exact h
    · simp at h
  | cons n t ih =>
    intro d a h
    show a ∈ dictKeys (initZeros (dictSet d n.id 0) t)
    apply ih
    rcases h with h | h
    · exact Or.inl (mem_dictKeys_dictSet_of_mem h)
    · rw [List.map_cons, List.mem_cons] at h
      rcases h with h | h
      · exact Or.inl (h ▸ mem_dictKeys_dictSet_self d n.id 0)
      · exact Or.inr h

/-- Writing the input vector succeeds whenever every input id is in range of
the vector, and afterwards the dict has the old keys plus the input ids. -/
theorem setInputs_some (inputs : List ℚ) :
    ∀ (ids : List Nat) (d : Dict),
      (∀ i ∈ ids, i - 1 < inputs.length) →
      ∃ d2, setInputs inputs d ids = some d2
        ∧ ∀ a, (a ∈ dictKeys d ∨ a ∈ ids) → a ∈ dictKeys d2 := by
  intro ids
  induction ids with
  | nil =>
    intro d _
    refine ⟨d, rfl, ?_⟩
    intro a h
    rcases h with h | h
    · exact h
    · simp at h
  | cons i rest ih =>
    intro d hlt
    have hi : i - 1 < inputs.length := hlt i (List.mem_cons_self i rest)
    have hne : inputs.get? (i - 1) ≠ none := by
      intro hcon
      rw [List.get?_eq_none] at hcon
      omega
    rcases Option.ne_none_iff_exists'.mp hne with ⟨v, hv⟩
    rcases ih (dictSet d i v) (fun j hj => hlt j (List.mem_cons_of_mem _ hj)) with
      ⟨d2, hd2, hkeys⟩
    refine ⟨d2, ?_, ?_⟩
    · show setInputs inputs d (i :: rest) = some d2
      unfold setInputs
      rw [hv]
      exact hd2
    · intro a ha
      apply hkeys
      rcases ha with h | h
      · exact Or.inl (mem_dictKeys_dictSet_of_mem h)
      · rcases List.mem_cons.mp h with h | h
        · exact Or.inl (h ▸ mem_dictKeys_dictSet_self d i v)
        · exact Or.inr h

/-- The weighted-sum loop succeeds when every enabled edge into the node has
its source id among the dict keys. -/
theorem weightedSum_some (d : Dict) (nid : Nat) :
    ∀ (edges : List Edge) (acc : ℚ),
      (∀ e ∈ edges, e.is_enabled = true → e.link.output_id = nid →
        e.link.input_id ∈ dictKeys d) →
      ∃ s, weightedSum d nid acc edges = some s := by
  intro edges
  induction edges with
  | nil => intro acc _; exact ⟨acc, rfl⟩
  | cons e rest ih =>
    intro acc h
    by_cases hc : (e.is_enabled && e.link.output_id == nid) = true
    · rcases Bool.and_eq_true_iff.mp hc with ⟨h1, h2⟩
      have h2n : e.link.output_id = nid := by simpa using h2
      rcases dictLookup_some_of_mem (h e (List.mem_cons_self _ _) h1 h2n) with ⟨v, hv⟩
      rcases ih (acc + v * e.weight)
          (fun x hx hx1 hx2 => h x (List.mem_cons_of_mem _ hx) hx1 hx2) with ⟨s, hs⟩
      refine ⟨s, ?_⟩
      show weightedSum d nid acc (e :: rest) = some s
      simp only [weightedSum, hc, if_true]
      rw [hv]
      exact hs
    · rcases ih acc (fun x hx hx1 hx2 => h x (List.mem_cons_of_mem _ hx) hx1 hx2) with ⟨s, hs⟩
      refine ⟨s, ?_⟩
      show weightedSum d nid acc (e :: rest) = some s
      simp only [weightedSum, hc, if_false]
      exact hs

/-- node_map lookup succeeds for every present node id. -/
theorem nodeMap_some {nodes : List Node} {nid : Nat}
    (h : nid ∈ nodes.map Node.id) : ∃ n, nodeMap nodes nid = some n := by
  rcases List.mem_map.mp h with ⟨n, hn, hnid⟩
  have hs : (nodes.reverse.find? (fun m => m.id == nid)).isSome := by
    rw [List.find?_isSome]
    exact ⟨n, List.mem_reverse.mpr hn, by simp [hnid]⟩
  rcases Option.isSome_iff_exists.mp hs with ⟨m, hm⟩
  exact ⟨m, hm⟩

/-- Processing one resolved node succeeds and can only extend the key set. -/
theorem processNode_some {nodes : List Node} {edges : List Edge} {d : Dict} {nid : Nat}
    (hn : nid ∈ nodes.map Node.id)
    (hsrc : ∀ e ∈ edges, e.is_enabled = true → e.link.input_id ∈ dictKeys d) :
    ∃ d2, processNode nodes edges d nid = some d2
      ∧ ∀ a ∈ dictKeys d, a ∈ dictKeys d2 := by
  rcases nodeMap_some hn with ⟨n, hnm⟩
  rcases weightedSum_some d nid edges 0 (fun e he h1 _ => hsrc e he h1) with ⟨s, hws⟩
  refine ⟨dictSet d nid (applyAct n.activation (s + n.bias)), ?_, ?_⟩
  · unfold processNode
    rw [hnm, hws]
  · intro a ha
    exact mem_dictKeys_dictSet_of_mem ha

/-- Processing a list of resolved node ids succeeds when they are all real
node ids and all enabled edge sources are already keys. -/
theorem processNodes_some (nodes : List Node) (edges : List Edge) :
    ∀ (order : List Nat) (d : Dict),
      (∀ nid ∈ order, nid ∈ nodes.map Node.id) →
      (∀ e ∈ edges, e.is_enabled = true → e.link.input_id ∈ dictKeys d) →
      ∃ d2, processNodes nodes edges d order = some d2
        ∧ ∀ a ∈ dictKeys d, a ∈ dictKeys d2 := by
  intro order
  induction order with
  | nil => intro d _ _; exact ⟨d, rfl, fun a ha => ha⟩
  | cons nid rest ih =>
    intro d horder hsrc
    rcases processNode_some (horder nid (List.mem_cons_self _ _)) hsrc with ⟨d1, hd1, hk1⟩
    rcases ih d1 (fun x hx => horder x (List.mem_cons_of_mem _ hx))
        (fun e he h1 => hk1 _ (hsrc e he h1)) with ⟨d2, hd2, hk2⟩
    refine ⟨d2, ?_, fun a ha => hk2 a (hk1 a ha)⟩
    show processNodes nodes edges d (nid :: rest) = some d2
    unfold processNodes
    rw [hd1]
    exact hd2

/-- Output collection succeeds on ids that are keys, with one value per id. -/
theorem collectOutputs_some (d : Dict) :
    ∀ ids : List Nat, (∀ i ∈ ids, i ∈ dictKeys d) →
      ∃ outs, collectOutputs d ids = some outs ∧ outs.length = ids.length := by
  intro ids
  induction ids with
  | nil => intro _; exact ⟨[], rfl, rfl⟩
  | cons i rest ih =>
    intro h
    rcases dictLookup_some_of_mem (h i (List.mem_cons_self _ _)) with ⟨v, hv⟩
    rcases ih (fun j hj => h j (List.mem_cons_of_mem _ hj)) with ⟨outs, houts, hlen⟩
    refine ⟨v :: outs, ?_, by simp [hlen]⟩
    show collectOutputs d (i :: rest) = some (v :: outs)
    unfold collectOutputs
    rw [hv, houts]

/-- Both outputs of one promotion scan draw from the scanned remainder. -/
theorem topoPass_subset (dep : Nat → List Nat) :
    ∀ (rem visited : List Nat),
      (∀ x ∈ (topoPass dep visited rem).1, x ∈ rem)
      ∧ (∀ x ∈ (topoPass dep visited rem).2.2, x ∈ rem) := by
  intro rem
  induction rem with
  | nil =>
    intro visited
    constructor <;> intro x hx <;> simp [topoPass] at hx
  | cons n rest ih =>
    intro visited
    by_cases hc : ((dep n).all (fun d => visited.contains d)) = true
    · constructor <;> intro x hx <;>
        simp only [topoPass, hc, if_true] at hx
      · rcases List.mem_cons.mp hx with h | h
        · exact List.mem_cons.mpr (Or.inl h)
        · exact List.mem_cons_of_mem _ ((ih (visited ++ [n])).1 x h)
      · exact List.mem_cons_of_mem _ ((ih (visited ++ [n])).2 x hx)
    · constructor <;> intro x hx <;>
        simp only [topoPass, hc, if_false, Bool.false_eq_true] at hx
      · exact List.mem_cons_of_mem _ ((ih visited).1 x hx)
      · rcases List.mem_cons.mp hx with h | h
        · exact List.mem_cons.mpr (Or.inl h)
        · exact List.mem_cons_of_mem _ ((ih visited).2 x h)

/-- However the promotion loop ends (exhaustion, completion or the
no-progress fallback), the result is the seeded order followed by ids drawn
from the remainder. -/
theorem topoLoop_decomp (dep : Nat → List Nat) :
    ∀ (fuel : Nat) (order visited rem : List Nat),
      ∃ t, topoLoop dep order visited rem fuel = order ++ t ∧ ∀ x ∈ t, x ∈ rem := by
  intro fuel
  induction fuel with
  | zero => intro order visited rem; exact ⟨rem, rfl, fun x hx => hx⟩
  | succ n ih =>
    intro order visited rem
    by_cases hrem : rem.isEmpty
    · refine ⟨[], by simp [topoLoop, hrem], ?_⟩
      intro x hx
      simp at hx
    · by_cases hp : (topoPass dep visited rem).1.isEmpty
      · refine ⟨(topoPass dep visited rem).2.2, ?_,
          fun x hx => (topoPass_subset dep rem visited).2 x hx⟩
        simp [topoLoop, hrem, hp]
      · rcases ih (order ++ (topoPass dep visited rem).1)
            (topoPass dep visited rem).2.1 (topoPass dep visited rem).2.2 with ⟨t, ht, hsub⟩
        refine ⟨(topoPass dep visited rem).1 ++ t, ?_, ?_⟩
        · have hstep : topoLoop dep order visited rem (n + 1)
              = topoLoop dep (order ++ (topoPass dep visited rem).1)
                  (topoPass dep visited rem).2.1 (topoPass dep visited rem).2.2 n := by
            simp [topoLoop, hrem, hp]
          rw [hstep, ht, List.append_assoc]
        · intro x hx
          rcases List.mem_append.mp hx with h | h
          · exact (topoPass_subset dep rem visited).1 x h
          · exact (topoPass_subset dep rem visited).2 x (hsub x h)

/-- Past its input prefix, the topological order holds only real node ids. -/
theorem getTopologicalOrder_drop_subset (nodes : List Node) (edges : List Edge)
    (input_size : Nat) :
    ∀ x ∈ (getTopologicalOrder nodes edges input_size).drop input_size,
      x ∈ nodes.map Node.id := by
  intro x hx
  unfold getTopologicalOrder at hx
  dsimp only at hx
  rcases topoLoop_decomp (nodeDeps edges)
      ((((nodes.map Node.id).filter
          (fun i => !((pyRange 1 (input_size + 1)).contains i))).dedup).length + 1)
      (pyRange 1 (input_size + 1)) (pyRange 1 (input_size + 1))
      (((nodes.map Node.id).filter
          (fun i => !((pyRange 1 (input_size + 1)).contains i))).dedup) with ⟨t, ht, hsub⟩
  have horder : (pyRange 1 (input_size + 1)).length = input_size := by
    simp [pyRange]
  rw [ht, List.drop_left' horder] at hx
  have hxrem := hsub x hx
  rw [List.mem_dedup] at hxrem
  exact List.mem_of_mem_filter hxrem

/-- C8: on a genome that has a node for every output id and whose enabled
edges reference only present node ids or input ids, forward evaluation of an
input vector of length in_features returns (without any raised lookup error)
a vector of exactly out_features values — even when the dependency graph
leaves nodes unresolved, since the order falls back to appending the
remainder. -/
theorem c8_theorem (g : Genome) (inputs : List ℚ)
    (hout : ∀ j ∈ pyRange (g.in_features + 1) (g.in_features + g.out_features + 1),
      j ∈ g.nodes.map Node.id)
    (hedge : ∀ e ∈ g.edges, e.is_enabled = true →
      (e.link.input_id ∈ g.nodes.map Node.id
        ∨ e.link.input_id ∈ pyRange 1 (g.in_features + 1))
      ∧ (e.link.output_id ∈ g.nodes.map Node.id
        ∨ e.link.output_id ∈ pyRange 1 (g.in_features + 1)))
    (hin : inputs.length = g.in_features) :
    ∃ outs, g.forward inputs = some outs ∧ outs.length = g.out_features := by
  have hd0 : ∀ a ∈ g.nodes.map Node.id, a ∈ dictKeys (initZeros [] g.nodes) :=
    fun a ha => mem_dictKeys_initZeros g.nodes [] a (Or.inr ha)
  have hids : ∀ i ∈ pyRange 1 (g.in_features + 1), i - 1 < inputs.length := by
    intro i hi
    rw [hin]
    have hmem := List.mem_range'_1.mp (by simpa [pyRange] using hi)
    omega
  rcases setInputs_some inputs (pyRange 1 (g.in_features + 1)) (initZeros [] g.nodes)
      hids with ⟨d1, hd1, hk1⟩
  have hsrc : ∀ e ∈ g.edges, e.is_enabled = true → e.link.input_id ∈ dictKeys d1 := by
    intro e he hen
    rcases (hedge e he hen).1 with h | h
    · exact hk1 _ (Or.inl (hd0 _ h))
    · exact hk1 _ (Or.inr h)
  rcases processNodes_some g.nodes g.edges
      ((getTopologicalOrder g.nodes g.edges g.in_features).drop g.in_features) d1
      (getTopologicalOrder_drop_subset g.nodes g.edges g.in_features) hsrc with
    ⟨d2, hd2, hk2⟩
  have houtkeys : ∀ i ∈ pyRange (g.in_features + 1) (g.in_features + g.out_features + 1),
      i ∈ dictKeys d2 :=
    fun i hi => hk2 _ (hk1 _ (Or.inl (hd0 _ (hout i hi))))
  rcases collectOutputs_some d2 _ houtkeys with ⟨outs, houts, hlen⟩
  refine ⟨outs, ?_, ?_⟩
  · show Genome.forward g inputs = some outs
    simp only [Genome.forward, hd1, hd2, houts]
  · rw [hlen]
    simp [pyRange]
    try omega

/-- C8 witness: the guarantee applied to a concrete genome with a hidden
node, a disabled edge and input [2]. -/
theorem c8_witness :
    ([(2 : ℚ)].length = hiddenNodeGenome.in_features)
    ∧ ∃ outs, hiddenNodeGenome.forward [2] = some outs
        ∧ outs.length = hiddenNodeGenome.out_features :=
  ⟨rfl, c8_theorem hiddenNodeGenome [2] (by decide) (by decide) rfl⟩

end DinoEvo
